import Mathlib

/-!
Shape-level formalization of the residual U-Net generator defined in
src/models/res_unet.py and of the model-selection logic in src/main.py.

Tensors are modelled by their shape [N, C, H, W].  Every torch layer used by
the source is modelled by its effect on shapes, returning none exactly when
torch would raise at runtime (channel mismatch, padded input smaller than the
kernel, negative transposed-convolution output size, non-broadcastable
addition, mismatched concatenation).  Normalization, activations and dropout
preserve shapes; batch normalization additionally checks its channel count.

The out-of-channel formulas are the documented torch formulas:
  Conv2d:          out = (size + 2*pad - kernel) / stride + 1   (floor)
  ConvTranspose2d: out = (size - 1) * stride - 2*pad + kernel
-/

/-- Shape of a rank-4 tensor [N, C, H, W]. -/
structure TShape where
  n : ℕ
  c : ℕ
  h : ℕ
  w : ℕ
deriving DecidableEq, Repr

/-- Output spatial size of nn.Conv2d. -/
def conv2dOut (size k stride pad : ℕ) : ℕ :=
  (size + 2 * pad - k) / stride + 1

/-- Shape semantics of nn.Conv2d(cin, cout, kernel_size=k, stride, padding).
torch raises when the padded input is smaller than the kernel, or when the
input channel count differs from the layer's in_channels. -/
def conv2dShape (cin cout k stride pad : ℕ) (s : TShape) : Option TShape :=
  if s.c = cin ∧ k ≤ s.h + 2 * pad ∧ k ≤ s.w + 2 * pad then
    some ⟨s.n, cout, conv2dOut s.h k stride pad, conv2dOut s.w k stride pad⟩
  else none

/-- Output spatial size of nn.ConvTranspose2d, computed in ℤ. -/
def convT2dOut (size k stride pad : ℕ) : ℤ :=
  ((size : ℤ) - 1) * stride - 2 * pad + k

/-- Shape semantics of nn.ConvTranspose2d(cin, cout, kernel_size=k, stride,
padding).  torch raises when the computed output size is negative or the
channel count mismatches. -/
def convT2dShape (cin cout k stride pad : ℕ) (s : TShape) : Option TShape :=
  if s.c = cin ∧ 0 ≤ convT2dOut s.h k stride pad ∧ 0 ≤ convT2dOut s.w k stride pad then
    some ⟨s.n, cout, (convT2dOut s.h k stride pad).toNat, (convT2dOut s.w k stride pad).toNat⟩
  else none

/-- Shape semantics of nn.BatchNorm2d(c): shape preserving, channel checked. -/
def batchNorm2dShape (c : ℕ) (s : TShape) : Option TShape :=
  if s.c = c then some s else none

/-- Shape semantics of the elementwise activations (LeakyReLU / ReLU). -/
def activationShape (s : TShape) : Option TShape := some s

/-- Shape semantics of nn.Dropout2d (shape preserving). -/
def dropout2dShape (s : TShape) : Option TShape := some s

/-- Shape semantics of nn.Identity. -/
def identityShape (s : TShape) : Option TShape := some s

/-- Shape semantics of nn.Tanh. -/
def tanhShape (s : TShape) : Option TShape := some s

/-- Shape semantics of x.type(torch.float32): the precision cast keeps the
shape. -/
def castFloat32Shape (s : TShape) : TShape := s

/-- Broadcasting of one dimension pair, as torch does for elementwise ops. -/
def broadcastDim (a b : ℕ) : Option ℕ :=
  if a = b then some a else if a = 1 then some b else if b = 1 then some a else none

/-- Shape semantics of tensor addition (the residual sum), with numpy-style
broadcasting over each of the four dimensions. -/
def addShape (s1 s2 : TShape) : Option TShape := do
  let n ← broadcastDim s1.n s2.n
  let c ← broadcastDim s1.c s2.c
  let h ← broadcastDim s1.h s2.h
  let w ← broadcastDim s1.w s2.w
  some ⟨n, c, h, w⟩

/-- Shape semantics of torch.cat([a, b], dim=1): all dimensions except the
channel dimension must match exactly; channels add. -/
def catShape (s1 s2 : TShape) : Option TShape :=
  if s1.n = s2.n ∧ s1.h = s2.h ∧ s1.w = s2.w then
    some ⟨s1.n, s1.c + s2.c, s1.h, s1.w⟩
  else none

/-- EncoderBlock.forward (src/models/res_unet.py:59-86): conv_block(x) +
conv_skip(x), where conv_block = LeakyReLU, Conv2d(cin, cout, 4, stride=2,
padding=1), BatchNorm2d, LeakyReLU, Conv2d(cout, cout, 3, padding=1),
BatchNorm2d if norm else Identity; conv_skip = Conv2d(cin, cout, 1, stride=2). -/
def EncoderBlock.forwardShape (cin cout : ℕ) (norm : Bool) (x : TShape) : Option TShape := do
  let a1 ← activationShape x
  let a2 ← conv2dShape cin cout 4 2 1 a1
  let a3 ← batchNorm2dShape cout a2
  let a4 ← activationShape a3
  let a5 ← conv2dShape cout cout 3 1 1 a4
  let a6 ← if norm then batchNorm2dShape cout a5 else identityShape a5
  let b ← conv2dShape cin cout 1 2 0 x
  addShape a6 b

/-- DecoderBlock.forward (src/models/res_unet.py:101-135): conv_block(x) +
conv_skip(x), where conv_block = ReLU, ConvTranspose2d(cin, cout, 4, stride=2,
padding=1), BatchNorm2d, ReLU, Conv2d(cout, cout, 3, padding=1), BatchNorm2d,
Dropout2d if dropout > 0 else Identity; conv_skip = ConvTranspose2d(cin, cout,
2, stride=2). -/
def DecoderBlock.forwardShape (cin cout : ℕ) (dropout : ℚ) (x : TShape) : Option TShape := do
  let a1 ← activationShape x
  let a2 ← convT2dShape cin cout 4 2 1 a1
  let a3 ← batchNorm2dShape cout a2
  let a4 ← activationShape a3
  let a5 ← conv2dShape cout cout 3 1 1 a4
  let a6 ← batchNorm2dShape cout a5
  let a7 ← if 0 < dropout then dropout2dShape a6 else identityShape a6
  let b ← convT2dShape cin cout 2 2 0 x
  addShape a7 b

/-- One stage stored in ResUnet's encoder/decoder ModuleLists. -/
inductive Layer where
  | conv2d (cin cout k stride pad : ℕ)
  | convT2d (cin cout k stride pad : ℕ)
  | encoderBlock (cin cout : ℕ) (norm : Bool)
  | decoderBlock (cin cout : ℕ) (dropout : ℚ)
deriving DecidableEq, Repr

/-- Shape semantics of applying one stored stage. -/
def Layer.shape : Layer → TShape → Option TShape
  | .conv2d cin cout k stride pad, s => conv2dShape cin cout k stride pad s
  | .convT2d cin cout k stride pad, s => convT2dShape cin cout k stride pad s
  | .encoderBlock cin cout norm, s => EncoderBlock.forwardShape cin cout norm s
  | .decoderBlock cin cout d, s => DecoderBlock.forwardShape cin cout d s

/-- Python max() over a nonempty sequence (max(channel_mults)); 0 on []. -/
def listMax : List ℕ → ℕ
  | [] => 0
  | m :: rest => rest.foldl max m

/-- The encoder-building loop of ResUnet.__init__ (res_unet.py:174-185):
walks channel_mults[1:] with level counting from 1, appending
EncoderBlock(in_channels, mult*64, norm = level != len(channel_mults)-1) and
updating in_channels.  Returns the built stages and the final in_channels. -/
def ResUnet.encLoop (totalLen : ℕ) : ℕ → ℕ → List ℕ → List Layer × ℕ
  | cin, _, [] => ([], cin)
  | cin, level, m :: rest =>
      let res := ResUnet.encLoop totalLen (m * 64) (level + 1) rest
      (Layer.encoderBlock cin (m * 64) (level != totalLen - 1) :: res.1, res.2)

/-- The decoder-building loop of ResUnet.__init__ (res_unet.py:190-217):
walks reversed(list(enumerate(channel_mults[:-1]))), appending
DecoderBlock(in_channels, mult*64, dropout if (mult == max(channel_mults) and
level > len(channel_mults) - 5) else 0) and setting in_channels = mult*64*2;
finally appends ConvTranspose2d(in_channels, out_channels, 4, stride=2,
padding=1).  The Python comparison level > len - 5 is on ints, so it is
modelled in ℤ. -/
def ResUnet.decLoop (outCh maxMult totalLen : ℕ) (dropout : ℚ) : ℕ → List (ℕ × ℕ) → List Layer
  | cin, [] => [Layer.convT2d cin outCh 4 2 1]
  | cin, (level, mult) :: rest =>
      Layer.decoderBlock cin (mult * 64)
        (if mult = maxMult ∧ ((level : ℤ) > (totalLen : ℤ) - 5) then dropout else 0) ::
      ResUnet.decLoop outCh maxMult totalLen dropout (mult * 64 * 2) rest

/-- The module lists built by ResUnet.__init__. -/
structure ResUnetCfg where
  encoders : List Layer
  decoders : List Layer
deriving DecidableEq, Repr

/-- ResUnet.__init__ (res_unet.py:154-220).  Indexing channel_mults[0] on an
empty sequence raises IndexError, modelled as none.  The first encoder stage
is a plain Conv2d(in_channels, channel_mults[0]*64, 4, stride=2, padding=1). -/
def ResUnet.init (inCh outCh : ℕ) (cm : List ℕ) (dropout : ℚ) : Option ResUnetCfg :=
  match cm with
  | [] => none
  | m0 :: rest =>
      let enc := ResUnet.encLoop (m0 :: rest).length (m0 * 64) 1 rest
      some
        { encoders := Layer.conv2d inCh (m0 * 64) 4 2 1 :: enc.1
          decoders :=
            ResUnet.decLoop outCh (listMax (m0 :: rest)) (m0 :: rest).length dropout
              enc.2 ((m0 :: rest).dropLast.enum.reverse) }

/-- The encoder pass of ResUnet.forward (res_unet.py:225-228): apply every
encoder in order, recording each stage's output. -/
def encodePass : List Layer → TShape → Option (TShape × List TShape)
  | [], h => some (h, [])
  | e :: rest, h => do
      let h1 ← e.shape h
      let res ← encodePass rest h1
      some (res.1, h1 :: res.2)

/-- The decoder loop of ResUnet.forward for every iteration with index ≠ 0
(res_unet.py:234-238): pop the last stored feature map, concatenate along the
channel dimension, apply the stage.  feats.pop() on an empty list raises
(none). -/
def decodeLoopAux : List Layer → TShape → List TShape → Option TShape
  | [], h, _ => some h
  | d :: rest, h, feats => do
      let f ← feats.getLast?
      let hc ← catShape h f
      let h1 ← d.shape hc
      decodeLoopAux rest h1 feats.dropLast

/-- The decoder loop of ResUnet.forward (res_unet.py:234-238): the first
iteration (index 0) consumes the current activation directly with no
concatenation; all later iterations pop and concatenate. -/
def decodePass : List Layer → TShape → List TShape → Option TShape
  | [], h, _ => some h
  | d :: rest, h, feats => do
      let h1 ← d.shape h
      decodeLoopAux rest h1 feats

/-- ResUnet.forward (res_unet.py:222-240): cast to float32, run the encoders
recording feature maps, discard the last recorded map (feats.pop()), run the
decoders with skip concatenations, apply the final Tanh. -/
def ResUnet.forward (cfg : ResUnetCfg) (x : TShape) : Option TShape := do
  let h := castFloat32Shape x
  let res ← encodePass cfg.encoders h
  let feats := res.2.dropLast
  let ho ← decodePass cfg.decoders res.1 feats
  tanhShape ho

/-! ### src/main.py: model selection and CLI parsing -/

/-- The three model variants the match statement in main can bind. -/
inductive ModelTag where
  | pix2pix
  | palette
  | transgan
deriving DecidableEq, Repr

/-- The match statement of main (src/main.py:14-32): which model name binds
which model; any other name leaves model = None. -/
def mainSelect (m : String) : Option ModelTag :=
  if m = "pix2pix" then some ModelTag.pix2pix
  else if m = "palette" then some ModelTag.palette
  else if m = "transgan" then some ModelTag.transgan
  else none

/-- Observable construction events of main, in program order. -/
inductive MainEvent where
  | modelConstructed (t : ModelTag)
  | dataModuleConstructed
  | trainerConstructed
  | fitRun
deriving DecidableEq, Repr

/-- main (src/main.py:11-53): bind the model from the name; if it is None,
raise ValueError("Incorrect model name (...)") — before ImageDataModule and
pl.Trainer are constructed; otherwise construct the data module, the trainer,
and call fit. -/
def mainRun (modelArg : String) : Except String (List MainEvent) :=
  match mainSelect modelArg with
  | none => Except.error ("Incorrect model name (" ++ modelArg ++ ")")
  | some t =>
      Except.ok [MainEvent.modelConstructed t, MainEvent.dataModuleConstructed,
        MainEvent.trainerConstructed, MainEvent.fitRun]

/-- The choices list of the --model argument (src/main.py:80-85). -/
def modelChoices : List String := ["pix2pix", "palette", "transgan"]

/-- The argparse handling of --model: absent means the default "pix2pix";
a value outside choices is rejected by the parser (none) before main runs. -/
def parseModelArg (arg : Option String) : Option String :=
  match arg with
  | none => some "pix2pix"
  | some m => if m ∈ modelChoices then some m else none

/-! ### Shape lemmas for the individual layers and blocks -/

/-- The strided 4×4 convolution with padding 1 halves even, positive spatial
dimensions. -/
theorem conv2dShape_four (cin cout N a b : ℕ) (ha : 1 ≤ a) (hb : 1 ≤ b) :
    conv2dShape cin cout 4 2 1 ⟨N, cin, 2 * a, 2 * b⟩ = some ⟨N, cout, a, b⟩ := by
  unfold conv2dShape conv2dOut
  dsimp only
  rw [if_pos ⟨rfl, by omega, by omega⟩]
  simp only [Option.some.injEq, TShape.mk.injEq]
  refine ⟨trivial, trivial, by omega, by omega⟩

/-- The 3×3 convolution with padding 1 preserves positive spatial dimensions. -/
theorem conv2dShape_three (c N h w : ℕ) (hh : 1 ≤ h) (hw : 1 ≤ w) :
    conv2dShape c c 3 1 1 ⟨N, c, h, w⟩ = some ⟨N, c, h, w⟩ := by
  unfold conv2dShape conv2dOut
  dsimp only
  rw [if_pos ⟨rfl, by omega, by omega⟩]
  simp only [Option.some.injEq, TShape.mk.injEq]
  refine ⟨trivial, trivial, by omega, by omega⟩

/-- The strided 1×1 shortcut convolution halves even, positive spatial
dimensions. -/
theorem conv2dShape_one (cin cout N a b : ℕ) (ha : 1 ≤ a) (hb : 1 ≤ b) :
    conv2dShape cin cout 1 2 0 ⟨N, cin, 2 * a, 2 * b⟩ = some ⟨N, cout, a, b⟩ := by
  unfold conv2dShape conv2dOut
  dsimp only
  rw [if_pos ⟨rfl, by omega, by omega⟩]
  simp only [Option.some.injEq, TShape.mk.injEq]
  refine ⟨trivial, trivial, by omega, by omega⟩

/-- The 4×4 stride-2 transposed convolution with padding 1 doubles spatial
dimensions. -/
theorem convT2dShape_four (cin cout N a b : ℕ) :
    convT2dShape cin cout 4 2 1 ⟨N, cin, a, b⟩ = some ⟨N, cout, 2 * a, 2 * b⟩ := by
  unfold convT2dShape convT2dOut
  dsimp only
  rw [if_pos ⟨rfl, by omega, by omega⟩]
  simp only [Option.some.injEq, TShape.mk.injEq]
  refine ⟨trivial, trivial, by omega, by omega⟩

/-- The 2×2 stride-2 transposed shortcut convolution doubles spatial
dimensions. -/
theorem convT2dShape_two (cin cout N a b : ℕ) :
    convT2dShape cin cout 2 2 0 ⟨N, cin, a, b⟩ = some ⟨N, cout, 2 * a, 2 * b⟩ := by
  unfold convT2dShape convT2dOut
  dsimp only
  rw [if_pos ⟨rfl, by omega, by omega⟩]
  simp only [Option.some.injEq, TShape.mk.injEq]
  refine ⟨trivial, trivial, by omega, by omega⟩

/-- EncoderBlock maps [N, cin, 2a, 2b] to [N, cout, a, b] for positive a, b,
for either value of the norm flag. -/
theorem encoderBlock_shape (cin cout : ℕ) (nm : Bool) (N a b : ℕ)
    (ha : 1 ≤ a) (hb : 1 ≤ b) :
    Layer.shape (Layer.encoderBlock cin cout nm) ⟨N, cin, 2 * a, 2 * b⟩
      = some ⟨N, cout, a, b⟩ := by
  show EncoderBlock.forwardShape cin cout nm ⟨N, cin, 2 * a, 2 * b⟩ = _
  cases nm <;>
    simp [EncoderBlock.forwardShape, activationShape,
      conv2dShape_four cin cout N a b ha hb, conv2dShape_three cout N a b ha hb,
      conv2dShape_one cin cout N a b ha hb, batchNorm2dShape, identityShape,
      addShape, broadcastDim]

/-- DecoderBlock maps [N, cin, a, b] to [N, cout, 2a, 2b] for positive a, b,
for any dropout rate. -/
theorem decoderBlock_shape (cin cout : ℕ) (dq : ℚ) (N a b : ℕ)
    (ha : 1 ≤ a) (hb : 1 ≤ b) :
    Layer.shape (Layer.decoderBlock cin cout dq) ⟨N, cin, a, b⟩
      = some ⟨N, cout, 2 * a, 2 * b⟩ := by
  show DecoderBlock.forwardShape cin cout dq ⟨N, cin, a, b⟩ = _
  by_cases hdq : 0 < dq <;>
    simp [DecoderBlock.forwardShape, activationShape, hdq,
      convT2dShape_four cin cout N a b, convT2dShape_two cin cout N a b,
      conv2dShape_three cout N (2 * a) (2 * b) (by omega) (by omega),
      batchNorm2dShape, dropout2dShape, identityShape, addShape, broadcastDim]

/-! ### The shape of the recorded feature-map stack -/

/-- Explicit description of a stack of feature maps: for a list of channel
counts chs, the entry with channel count chs[i] has spatial size
2^(chs.length - 1 - i) * (s, t), i.e. the spatial sizes shrink towards the
end of the list, reaching (s, t) at the last entry. -/
def featsChan (N s t : ℕ) : List ℕ → List TShape
  | [] => []
  | ch :: rest => ⟨N, ch, 2 ^ rest.length * s, 2 ^ rest.length * t⟩ :: featsChan N s t rest

theorem featsChan_concat (N s t : ℕ) (u : List ℕ) (c : ℕ) :
    featsChan N s t (u ++ [c]) = featsChan N (2 * s) (2 * t) u ++ [⟨N, c, s, t⟩] := by
  induction u with
  | nil => simp [featsChan]
  | cons x u' ih =>
      simp only [List.cons_append, featsChan, List.append_eq, List.length_append,
        List.length_cons, List.length_nil, ih, List.cons.injEq, TShape.mk.injEq]
      refine ⟨⟨?_, ?_, by ring, by ring⟩, ?_⟩ <;> trivial

theorem featsChan_dropLast (N s t : ℕ) (chs : List ℕ) :
    (featsChan N s t chs).dropLast = featsChan N (2 * s) (2 * t) chs.dropLast := by
  induction chs with
  | nil => simp [featsChan]
  | cons c rest ih =>
      cases rest with
      | nil => simp [featsChan]
      | cons c2 rest2 =>
          simp only [featsChan] at ih ⊢
          rw [List.dropLast_cons₂, ih]
          simp only [List.cons.injEq, TShape.mk.injEq, List.length_dropLast,
            List.length_cons, Nat.add_sub_cancel]
          refine ⟨⟨?_, ?_, by ring, by ring⟩, ?_⟩ <;> trivial

/-- Running the encoder stages built by the encoder loop on an input whose
spatial size is 2^(number of stages) times a positive base yields the
bottleneck at the base size, recording one feature map per stage with the
expected channels and halving spatial sizes. -/
theorem encLoop_encodePass (ms : List ℕ) : ∀ (L cin lvl N s t : ℕ), 1 ≤ s → 1 ≤ t →
    encodePass (ResUnet.encLoop L cin lvl ms).1
        ⟨N, cin, 2 ^ ms.length * s, 2 ^ ms.length * t⟩
      = some (⟨N, (ResUnet.encLoop L cin lvl ms).2, s, t⟩,
          featsChan N s t (ms.map (fun m => m * 64))) := by
  induction ms with
  | nil =>
      intro L cin lvl N s t hs ht
      simp [ResUnet.encLoop, encodePass, featsChan]
  | cons m rest ih =>
      intro L cin lvl N s t hs ht
      have hgrow : 2 ^ (m :: rest).length * s = 2 * (2 ^ rest.length * s) := by
        simp [List.length_cons, pow_succ]; ring
      have hgrow' : 2 ^ (m :: rest).length * t = 2 * (2 ^ rest.length * t) := by
        simp [List.length_cons, pow_succ]; ring
      rw [hgrow, hgrow']
      simp only [ResUnet.encLoop, encodePass, Option.bind_eq_bind]
      rw [encoderBlock_shape cin (m * 64) (lvl != L - 1) N (2 ^ rest.length * s)
        (2 ^ rest.length * t) (Nat.mul_pos (pow_pos (by norm_num) rest.length) hs)
        (Nat.mul_pos (pow_pos (by norm_num) rest.length) ht)]
      rw [Option.some_bind, ih L (m * 64) (lvl + 1) N s t hs ht, Option.some_bind]
      simp [featsChan, List.length_map]

/-- Concatenation of two equal-spatial-size maps along the channel axis. -/
theorem catShape_same (N c1 c2 h w : ℕ) :
    catShape ⟨N, c1, h, w⟩ ⟨N, c2, h, w⟩ = some ⟨N, c1 + c2, h, w⟩ := by
  unfold catShape
  dsimp only
  rw [if_pos ⟨rfl, rfl, rfl⟩]

/-- Unfolding of a skip-connection iteration when the stack ends in x. -/
theorem decodeLoopAux_concat (d : Layer) (rest : List Layer) (h x : TShape)
    (xs : List TShape) :
    decodeLoopAux (d :: rest) h (xs ++ [x])
      = (catShape h x).bind fun hc =>
          (d.shape hc).bind fun h1 => decodeLoopAux rest h1 xs := by
  simp [decodeLoopAux, List.getLast?_concat, List.dropLast_concat]

/-- Running the decoder stages built by the decoder loop (after the first
decoder has been applied) against a stack of feature maps whose channel
counts match the stages consumes the whole stack and doubles the spatial
size once per remaining stage plus once for the final transposed
convolution. -/
theorem decLoop_decodeLoopAux (outCh maxM L N : ℕ) (dq : ℚ) :
    ∀ (v : List (ℕ × ℕ)) (c s t : ℕ), 1 ≤ s → 1 ≤ t →
    decodeLoopAux (ResUnet.decLoop outCh maxM L dq (2 * c) v) ⟨N, c, s, t⟩
        (featsChan N s t ((v.map (fun p => p.2 * 64)).reverse ++ [c]))
      = some ⟨N, outCh, 2 ^ (v.length + 1) * s, 2 ^ (v.length + 1) * t⟩ := by
  intro v
  induction v with
  | nil =>
      intro c s t hs ht
      simp only [ResUnet.decLoop, List.map_nil, List.reverse_nil, List.nil_append,
        featsChan, List.length_nil, pow_zero, one_mul]
      rw [show (⟨N, c, s, t⟩ : TShape) :: ([] : List TShape) = [] ++ [⟨N, c, s, t⟩] from rfl]
      rw [decodeLoopAux_concat, catShape_same]
      rw [show c + c = 2 * c from by ring]
      simp only [Option.some_bind, Layer.shape]
      rw [convT2dShape_four (2 * c) outCh N s t]
      simp [decodeLoopAux, pow_one]
  | cons p rest ih =>
      intro c s t hs ht
      obtain ⟨lvl, mult⟩ := p
      simp only [ResUnet.decLoop, List.map_cons, List.reverse_cons]
      rw [List.append_assoc, show [(mult * 64)] ++ [c]
          = [mult * 64, c] from rfl]
      rw [show (rest.map (fun p => p.2 * 64)).reverse ++ [mult * 64, c]
          = ((rest.map (fun p => p.2 * 64)).reverse ++ [mult * 64]) ++ [c] from by
        simp]
      rw [featsChan_concat]
      rw [decodeLoopAux_concat, catShape_same]
      rw [show c + c = 2 * c from by ring]
      simp only [Option.some_bind]
      rw [decoderBlock_shape (2 * c) (mult * 64) _ N s t hs ht]
      simp only [Option.some_bind]
      rw [show mult * 64 * 2 = 2 * (mult * 64) from by ring]
      rw [ih (mult * 64) (2 * s) (2 * t) (by omega) (by omega)]
      simp only [Option.some.injEq, TShape.mk.injEq, List.length_cons]
      refine ⟨?_, ?_, by ring, by ring⟩ <;> trivial

/-- reversed(list(enumerate(u))) starts with the last element of u paired
with its index. -/
theorem enum_reverse_concat (xs : List ℕ) (x : ℕ) :
    ((xs ++ [x]).enum).reverse = (xs.length, x) :: xs.enum.reverse := by
  rw [List.enum_append, List.reverse_append]
  rfl

/-- Extracting the multipliers (times 64) from a reversed enumeration. -/
theorem enum_reverse_map_mult (xs : List ℕ) :
    (xs.enum.reverse).map (fun p => p.2 * 64) = (xs.map (fun m => m * 64)).reverse := by
  rw [List.map_reverse]
  congr 1
  rw [show (fun p : ℕ × ℕ => p.2 * 64) = (fun m => m * 64) ∘ Prod.snd from rfl]
  rw [← List.map_map, List.enum_map_snd]

/-- The shape behaviour of ResUnet.forward for any configuration built by
ResUnet.__init__ from a channel-multiplier sequence of length at least 2, on
inputs whose spatial sizes are 2^len times a positive base. -/
theorem resunet_forward_shape_general
    (inCh outCh N : ℕ) (cm : List ℕ) (dq : ℚ) (cfg : ResUnetCfg) (s t : ℕ)
    (hcm : 2 ≤ cm.length)
    (hmk : ResUnet.init inCh outCh cm dq = some cfg)
    (hs : 1 ≤ s) (ht : 1 ≤ t) :
    ResUnet.forward cfg ⟨N, inCh, 2 ^ cm.length * s, 2 ^ cm.length * t⟩
      = some ⟨N, outCh, 2 ^ cm.length * s, 2 ^ cm.length * t⟩ := by
  cases cm with
  | nil => simp at hcm
  | cons m0 rest =>
      have hrest : 1 ≤ rest.length := by
        simpa [List.length_cons] using hcm
      simp only [ResUnet.init, Option.some.injEq] at hmk
      subst hmk
      -- decompose channel_mults[:-1], which is nonempty, from the right
      rcases List.eq_nil_or_concat ((m0 :: rest).dropLast) with hw | ⟨xs, x, hw⟩
      · exfalso
        have h0 : rest = [] := by
          have := congrArg List.length hw
          simpa [List.length_dropLast, List.length_cons] using this
        rw [h0] at hrest
        simp at hrest
      rw [List.concat_eq_append] at hw
      have hxslen : xs.length + 1 = rest.length := by
        have := congrArg List.length hw
        simpa [List.length_dropLast, List.length_append] using this.symm
      -- spatial sizes: 2^(len) * s = 2 * (2^(len-1) * s)
      rw [show (2 : ℕ) ^ (m0 :: rest).length * s = 2 * (2 ^ rest.length * s) from by
        simp [List.length_cons, pow_succ]; ring]
      rw [show (2 : ℕ) ^ (m0 :: rest).length * t = 2 * (2 ^ rest.length * t) from by
        simp [List.length_cons, pow_succ]; ring]
      unfold ResUnet.forward castFloat32Shape
      simp only [encodePass, Layer.shape, Option.bind_eq_bind]
      rw [conv2dShape_four inCh (m0 * 64) N (2 ^ rest.length * s) (2 ^ rest.length * t)
        (Nat.mul_pos (pow_pos (by norm_num) rest.length) hs)
        (Nat.mul_pos (pow_pos (by norm_num) rest.length) ht)]
      rw [Option.some_bind]
      rw [encLoop_encodePass rest ((m0 :: rest).length) (m0 * 64) 1 N s t hs ht]
      simp only [Option.some_bind]
      -- the recorded stack is featsChan over all channel counts
      rw [show (⟨N, m0 * 64, 2 ^ rest.length * s, 2 ^ rest.length * t⟩ : TShape) ::
            featsChan N s t (rest.map (fun m => m * 64))
          = featsChan N s t (((m0 :: rest).map (fun m => m * 64))) from by
        simp [featsChan, List.length_map]]
      rw [featsChan_dropLast]
      rw [show ((m0 :: rest).map (fun m => m * 64)).dropLast
          = (xs.enum.reverse.map (fun p => p.2 * 64)).reverse ++ [x * 64] from by
        rw [enum_reverse_map_mult, List.reverse_reverse, ← List.map_dropLast, hw]
        simp]
      rw [hw, enum_reverse_concat]
      simp only [ResUnet.decLoop, decodePass, Option.bind_eq_bind]
      rw [decoderBlock_shape _ (x * 64) _ N s t hs ht]
      rw [Option.some_bind]
      rw [show x * 64 * 2 = 2 * (x * 64) from by ring]
      rw [decLoop_decodeLoopAux outCh (listMax (m0 :: rest)) ((m0 :: rest).length) N dq
        (xs.enum.reverse) (x * 64) (2 * s) (2 * t) (by omega) (by omega)]
      simp only [Option.some_bind, tanhShape, Option.some.injEq, TShape.mk.injEq,
        List.length_reverse, List.enum_length]
      refine ⟨?_, ?_, ?_, ?_⟩
      · trivial
      · trivial
      · rw [show xs.length + 1 = rest.length from hxslen]
        ring
      · rw [show xs.length + 1 = rest.length from hxslen]
        ring

/-! ### Skip-connection indexing, stated from the specification's words -/

/-- Modelled from the spec: "the i-th decoder (from the bottleneck outward)
concatenates its input with the (encoder-stages − 1 − i)-th stored feature
map, except the very first decoder stage, which consumes the bottleneck
directly with no concatenation".  Here stored is the full list of recorded
encoder outputs (one per encoder stage) and i is the decoder index. -/
def specDecodeGo (stored : List TShape) : ℕ → List Layer → TShape → Option TShape
  | _, [], h => some h
  | i, d :: rest, h => do
      let hin ← if i = 0 then some h
        else (stored.get? (stored.length - 1 - i)).bind fun f => catShape h f
      let h1 ← d.shape hin
      specDecodeGo stored (i + 1) rest h1

/-- The decoder pass as the specification describes it: direct indexing into
the full list of stored encoder feature maps. -/
def specDecodePass (ds : List Layer) (h : TShape) (stored : List TShape) :
    Option TShape :=
  specDecodeGo stored 0 ds h

theorem decodeLoopAux_spec (stored : List TShape) :
    ∀ (ds : List Layer) (h : TShape), ds.length < stored.length →
    decodeLoopAux ds h (stored.take ds.length)
      = specDecodeGo stored (stored.length - ds.length) ds h := by
  intro ds
  induction ds with
  | nil =>
      intro h _
      simp [decodeLoopAux, specDecodeGo]
  | cons d rest ih =>
      intro h hlen
      have hlen' : rest.length + 1 < stored.length := by
        simpa [List.length_cons] using hlen
      have hi0 : stored.length - (rest.length + 1) ≠ 0 := by omega
      have hgl : (stored.take (rest.length + 1)).getLast? = stored.get? rest.length := by
        rw [List.getLast?_eq_getElem?, List.get?_eq_getElem?, List.length_take]
        rw [show (rest.length + 1) ⊓ stored.length = rest.length + 1 by
          simp [Nat.min_def]; omega]
        rw [List.getElem?_take]
        simp
      have hdl : (stored.take (rest.length + 1)).dropLast = stored.take rest.length := by
        rw [List.dropLast_eq_take, List.length_take]
        rw [show (rest.length + 1) ⊓ stored.length = rest.length + 1 by
          simp [Nat.min_def]; omega]
        rw [List.take_take]
        congr 1
        simp [Nat.min_def]
      have hidx : stored.length - 1 - (stored.length - (rest.length + 1))
          = rest.length := by omega
      simp only [decodeLoopAux, specDecodeGo, List.length_cons, Option.bind_eq_bind]
      rw [hgl, hdl, if_neg hi0, hidx]
      cases hf : stored.get? rest.length with
      | none => simp
      | some f =>
          simp only [Option.some_bind]
          cases hc : catShape h f with
          | none => simp
          | some hcat =>
              simp only [Option.some_bind]
              cases hd : d.shape hcat with
              | none => simp
              | some h1 =>
                  simp only [Option.some_bind]
                  rw [show stored.length - (rest.length + 1) + 1
                      = stored.length - rest.length from by omega]
                  exact ih h1 (by omega)

/-- The decoder loop of ResUnet.forward, fed the recorded stack with its last
entry discarded, computes the pairing the specification describes over the
full stack: decoder i consumes stored[stages − 1 − i], decoder 0 consumes the
bottleneck directly, and stored[stages − 1] (the bottleneck copy) is the only
stored entry never concatenated. -/
theorem decodePass_spec (ds : List Layer) (h : TShape) (stored : List TShape)
    (hlen : stored.length = ds.length) :
    decodePass ds h stored.dropLast = specDecodePass ds h stored := by
  cases ds with
  | nil => simp [decodePass, specDecodePass, specDecodeGo]
  | cons d rest =>
      simp only [decodePass, specDecodePass, specDecodeGo, if_pos, Option.bind_eq_bind,
        Option.some_bind]
      cases hd : d.shape h with
      | none => simp
      | some h1 =>
          simp only [Option.some_bind]
          have hdrop : stored.dropLast = stored.take rest.length := by
            rw [List.dropLast_eq_take]
            congr 1
            simp [hlen, List.length_cons]
          rw [hdrop]
          rw [decodeLoopAux_spec stored rest h1 (by simp [hlen, List.length_cons])]
          rw [show stored.length - rest.length = 0 + 1 from by
            simp [hlen, List.length_cons]]

theorem encLoop_length (ms : List ℕ) :
    ∀ L cin lvl, (ResUnet.encLoop L cin lvl ms).1.length = ms.length := by
  induction ms with
  | nil => intro L cin lvl; simp [ResUnet.encLoop]
  | cons m rest ih => intro L cin lvl; simp [ResUnet.encLoop, ih]

theorem decLoop_length (outCh maxM L : ℕ) (dq : ℚ) :
    ∀ (v : List (ℕ × ℕ)) (cin : ℕ),
    (ResUnet.decLoop outCh maxM L dq cin v).length = v.length + 1 := by
  intro v
  induction v with
  | nil => intro cin; simp [ResUnet.decLoop]
  | cons p rest ih =>
      intro cin
      obtain ⟨lvl, mult⟩ := p
      simp [ResUnet.decLoop, ih]

/-- Both module lists built by the constructor have one stage per
channel-multiplier entry. -/
theorem init_stage_counts (inCh outCh : ℕ) (cm : List ℕ) (dq : ℚ) (cfg : ResUnetCfg)
    (hmk : ResUnet.init inCh outCh cm dq = some cfg) :
    cfg.encoders.length = cm.length ∧ cfg.decoders.length = cm.length := by
  cases cm with
  | nil => simp [ResUnet.init] at hmk
  | cons m0 rest =>
      simp only [ResUnet.init, Option.some.injEq] at hmk
      subst hmk
      constructor
      · simp [List.length_cons, encLoop_length]
      · simp [decLoop_length, List.length_reverse, List.enum_length,
          List.length_dropLast, List.length_cons]

/-! ### Dropout assignment of the decoder-building loop -/

/-- An entry of the built decoder list that is a DecoderBlock must come from
the walked (level, mult) list, with the dropout rate the loop computes. -/
theorem decLoop_decoderBlock_inv (outCh maxM L : ℕ) (dq : ℚ) :
    ∀ (v : List (ℕ × ℕ)) (cin j cin' cout' : ℕ) (δ : ℚ),
    (ResUnet.decLoop outCh maxM L dq cin v).get? j
        = some (Layer.decoderBlock cin' cout' δ) →
    ∃ hj : j < v.length, cout' = (v.get ⟨j, hj⟩).2 * 64 ∧
      δ = (if (v.get ⟨j, hj⟩).2 = maxM ∧ (((v.get ⟨j, hj⟩).1 : ℤ) > (L : ℤ) - 5)
           then dq else 0) := by
  intro v
  induction v with
  | nil =>
      intro cin j cin' cout' δ hget
      cases j with
      | zero => simp [ResUnet.decLoop, List.get?_cons_zero] at hget
      | succ j' => simp [ResUnet.decLoop, List.get?_cons_succ] at hget
  | cons p rest ih =>
      intro cin j cin' cout' δ hget
      obtain ⟨lvl, mult⟩ := p
      cases j with
      | zero =>
          rw [ResUnet.decLoop, List.get?_cons_zero] at hget
          simp only [Option.some.injEq, Layer.decoderBlock.injEq] at hget
          exact ⟨by simp, hget.2.1.symm, hget.2.2.symm⟩
      | succ j' =>
          rw [ResUnet.decLoop, List.get?_cons_succ] at hget
          obtain ⟨hj', hc, hd⟩ := ih (mult * 64 * 2) j' cin' cout' δ hget
          refine ⟨by simpa [List.length_cons] using Nat.succ_lt_succ hj', ?_, ?_⟩
          · simpa [List.get_cons_succ] using hc
          · simpa [List.get_cons_succ] using hd

/-- Indexing into reversed(list(enumerate(u))): position j holds the pair
(u.length − 1 − j, u[u.length − 1 − j]). -/
theorem enum_reverse_get (u : List ℕ) (j : ℕ) (hj : j < u.length) :
    (u.enum.reverse).get? j
      = some (u.length - 1 - j, u.get ⟨u.length - 1 - j, by omega⟩) := by
  rw [List.get?_eq_getElem?, List.getElem?_reverse (by simpa [List.enum_length] using hj)]
  rw [List.enum_length, List.getElem?_enum]
  rw [List.getElem?_eq_getElem (l := u) (n := u.length - 1 - j) (by omega)]
  simp [List.get_eq_getElem]


/-! ### Claims -/

/-- C1 (as stated it fails at spatial size 0): with channel_mults = [1, 1]
(length 2, positive entries) and an input of shape [1, 1, 0, 4] whose H = 0
and W = 4 are both divisible by 2^2 = 4, the forward pass fails (the first
4×4 convolution rejects a padded input smaller than its kernel) instead of
returning a tensor of shape [1, 1, 0, 4]. -/
theorem claim_C1_counterexample :
    (ResUnet.init 1 1 [1, 1] (1/2)).bind
      (fun cfg => ResUnet.forward cfg ⟨1, 1, 0, 4⟩) = none := by decide

/-- C1 (amended): for every channel-multiplier sequence of length ≥ 2 with
positive entries and every input of shape [N, in_channels, H, W] with H and W
divisible by 2^len and positive, ResUnet.forward returns shape
[N, out_channels, H, W]. -/
theorem claim_C1_forward_shape (inCh outCh N : ℕ) (cm : List ℕ) (dq : ℚ)
    (cfg : ResUnetCfg) (s t : ℕ) (hcm : 2 ≤ cm.length) (hpos : ∀ m ∈ cm, 0 < m)
    (hmk : ResUnet.init inCh outCh cm dq = some cfg) (hs : 1 ≤ s) (ht : 1 ≤ t) :
    ResUnet.forward cfg ⟨N, inCh, 2 ^ cm.length * s, 2 ^ cm.length * t⟩
      = some ⟨N, outCh, 2 ^ cm.length * s, 2 ^ cm.length * t⟩ :=
  resunet_forward_shape_general inCh outCh N cm dq cfg s t hcm hmk hs ht

/-- Witness for C1: channel_mults = [1, 2], input [1, 1, 4, 4], output
[1, 2, 4, 4]. -/
theorem claim_C1_witness :
    2 ≤ ([1, 2] : List ℕ).length ∧ (∀ m ∈ ([1, 2] : List ℕ), 0 < m) ∧
    ResUnet.forward
        ⟨[Layer.conv2d 1 64 4 2 1, Layer.encoderBlock 64 128 false],
         [Layer.decoderBlock 128 64 0, Layer.convT2d 128 2 4 2 1]⟩
        ⟨1, 1, 2 ^ ([1, 2] : List ℕ).length * 1, 2 ^ ([1, 2] : List ℕ).length * 1⟩
      = some ⟨1, 2, 2 ^ ([1, 2] : List ℕ).length * 1, 2 ^ ([1, 2] : List ℕ).length * 1⟩ := by
  refine ⟨by decide, by decide, ?_⟩
  exact claim_C1_forward_shape 1 2 1 [1, 2] (1/2)
    ⟨[Layer.conv2d 1 64 4 2 1, Layer.encoderBlock 64 128 false],
     [Layer.decoderBlock 128 64 0, Layer.convT2d 128 2 4 2 1]⟩
    1 1 (by decide) (by decide) (by decide) (by decide) (by decide)

/-- C2 (as stated it miscounts): for the default channel_mults
(1,2,4,8,8,8,8,8) with dropout 0.5 there are 8 decoder stages, and the stage
at decoder position 3 — the fourth stage from the bottleneck outward, whose
level is 3 = len − 5 and whose multiplier 8 is maximal — receives dropout 0.
Only the three stages closest to the bottleneck (positions 0, 1, 2, levels
6, 5, 4) receive the nonzero rate, so the set of dropout-enabled stages is
not "the four decoder stages closest to the bottleneck". -/
theorem claim_C2_counterexample :
    ((ResUnet.init 3 3 [1, 2, 4, 8, 8, 8, 8, 8] (1/2)).map
      (fun cfg => (cfg.decoders.length, cfg.decoders.get? 3)))
      = some (8, some (Layer.decoderBlock 1024 512 0)) := by decide

set_option maxHeartbeats 1000000 in
/-- C2 (amended): for every channel-multiplier sequence and positive
configured dropout rate, a DecoderBlock at decoder position j (from the
bottleneck outward) receives a nonzero rate exactly when its multiplier
channel_mults[len − 2 − j] is the maximum of the sequence AND j < 3, i.e.
the stage is among the three (not four) decoder stages closest to the
bottleneck; the literal boundary condition level > len − 5 of the source is
equivalent to j < 3.  All other decoder stages receive dropout 0. -/
theorem claim_C2_dropout_policy (inCh outCh : ℕ) (cm : List ℕ) (dq : ℚ)
    (cfg : ResUnetCfg) (hmk : ResUnet.init inCh outCh cm dq = some cfg)
    (hdq : 0 < dq) (j cin cout : ℕ) (δ : ℚ)
    (hget : cfg.decoders.get? j = some (Layer.decoderBlock cin cout δ)) :
    (δ ≠ 0 ↔ (cm.get? (cm.length - 2 - j) = some (listMax cm) ∧ j < 3)) := by
  cases cm with
  | nil => simp [ResUnet.init] at hmk
  | cons m0 rest =>
      simp only [ResUnet.init, Option.some.injEq] at hmk
      subst hmk
      simp only at hget
      obtain ⟨hj, hcout, hδ⟩ := decLoop_decoderBlock_inv outCh (listMax (m0 :: rest))
        ((m0 :: rest).length) dq ((m0 :: rest).dropLast.enum.reverse) _ j cin cout δ hget
      have hjw : j < ((m0 :: rest).dropLast).length := by
        simpa [List.length_reverse, List.enum_length] using hj
      have hwl : ((m0 :: rest).dropLast).length = rest.length := by
        simp [List.length_dropLast, List.length_cons]
      have hjr : j < rest.length := hwl ▸ hjw
      have hpair : ((m0 :: rest).dropLast.enum.reverse).get ⟨j, hj⟩
          = (((m0 :: rest).dropLast).length - 1 - j,
             ((m0 :: rest).dropLast).get
               ⟨((m0 :: rest).dropLast).length - 1 - j, by omega⟩) := by
        have h1 := enum_reverse_get ((m0 :: rest).dropLast) j hjw
        rw [List.get?_eq_get hj] at h1
        exact Option.some_inj.mp h1
      rw [hpair] at hδ
      dsimp only at hδ
      have hidx : ((m0 :: rest).dropLast).length - 1 - j = rest.length - 1 - j := by
        rw [hwl]
      simp only [hidx] at hδ
      have hmult : ((m0 :: rest).dropLast).get ⟨rest.length - 1 - j, by rw [hwl]; omega⟩
          = (m0 :: rest).get ⟨rest.length - 1 - j, by simp only [List.length_cons]; omega⟩ := by
        have e1 : ((m0 :: rest).dropLast).get? (rest.length - 1 - j)
            = (m0 :: rest).get? (rest.length - 1 - j) := by
          rw [List.dropLast_eq_take, List.get?_eq_getElem?, List.get?_eq_getElem?,
            List.getElem?_take, if_pos (by simp only [List.length_cons]; omega)]
        rw [List.get?_eq_get (by rw [hwl]; omega),
          List.get?_eq_get (by simp only [List.length_cons]; omega)] at e1
        exact Option.some_inj.mp e1
      rw [hmult] at hδ
      have hcmget : (m0 :: rest).get? ((m0 :: rest).length - 2 - j)
          = some ((m0 :: rest).get
              ⟨rest.length - 1 - j, by simp only [List.length_cons]; omega⟩) := by
        rw [show (m0 :: rest).length - 2 - j = rest.length - 1 - j from by
          simp only [List.length_cons]; omega]
        exact List.get?_eq_get (by simp only [List.length_cons]; omega)
      rw [hcmget]
      rw [hδ]
      by_cases hcond : ((m0 :: rest).get
            ⟨rest.length - 1 - j, by simp only [List.length_cons]; omega⟩ = listMax (m0 :: rest)
          ∧ (((rest.length - 1 - j : ℕ) : ℤ) > (((m0 :: rest).length : ℕ) : ℤ) - 5))
      · rw [if_pos hcond]
        have hlt : j < 3 := by
          have h2 := hcond.2
          rw [show (((m0 :: rest).length : ℕ) : ℤ) = (rest.length : ℤ) + 1 from by
            simp [List.length_cons]] at h2
          omega
        simp only [ne_eq, hdq.ne', not_false_eq_true, true_iff]
        exact ⟨by rw [Option.some_inj]; exact hcond.1, hlt⟩
      · rw [if_neg hcond]
        simp only [ne_eq, not_true_eq_false, false_iff, not_and]
        intro hsome hlt
        exact hcond ⟨Option.some_inj.mp hsome, by
          rw [show (((m0 :: rest).length : ℕ) : ℤ) = (rest.length : ℤ) + 1 from by
            simp [List.length_cons]]
          omega⟩

/-- Witness for C2: channel_mults = [1, 1], dropout rate 1.  The single
decoder block (position 0, level 0, multiplier 1 = max) receives the nonzero
rate, and indeed level 0 > 2 − 5 and 0 < 3. -/
theorem claim_C2_witness :
    ((1 : ℚ) ≠ 0 ↔ (([1, 1] : List ℕ).get? 0 = some (listMax [1, 1]) ∧ 0 < 3)) :=
  claim_C2_dropout_policy 3 3 [1, 1] 1
    ⟨[Layer.conv2d 3 64 4 2 1, Layer.encoderBlock 64 64 false],
     [Layer.decoderBlock 64 64 1, Layer.convT2d 128 3 4 2 1]⟩
    (by decide) (by decide) 0 64 64 1 (by decide)

/-- C3 (as stated it is wrong about length 1): with channel_mults = [1]
(length 1 < 2), construction succeeds and the forward pass on the well-shaped
input [1, 3, 4, 4] returns normally with shape [1, 3, 4, 4] — the decoder
loop has a single iteration with index 0, so no concatenation is attempted
and no shape-mismatch failure occurs. -/
theorem claim_C3_counterexample :
    (ResUnet.init 3 3 [1] (1/2)).bind
      (fun cfg => ResUnet.forward cfg ⟨1, 3, 4, 4⟩) = some ⟨1, 3, 4, 4⟩ := by decide

/-- C3 (amended): neither the constructor nor the forward pass validates
channel_mults, but length < 2 does not produce a concatenation failure: an
empty sequence fails in the constructor itself (channel_mults[0] raises
IndexError), and a singleton sequence builds a network whose forward pass
succeeds on any well-shaped input — its only decoder iteration is the
index-0 one that skips concatenation. -/
theorem claim_C3_short_mults (inCh outCh m : ℕ) (dq : ℚ) (N a b : ℕ)
    (ha : 1 ≤ a) (hb : 1 ≤ b) :
    ResUnet.init inCh outCh [] dq = none ∧
    (ResUnet.init inCh outCh [m] dq).bind
        (fun cfg => ResUnet.forward cfg ⟨N, inCh, 2 * a, 2 * b⟩)
      = some ⟨N, outCh, 2 * a, 2 * b⟩ := by
  constructor
  · rfl
  · have hinit : ResUnet.init inCh outCh [m] dq
        = some ⟨[Layer.conv2d inCh (m * 64) 4 2 1],
                [Layer.convT2d (m * 64) outCh 4 2 1]⟩ := by
      simp [ResUnet.init, ResUnet.encLoop, ResUnet.decLoop, listMax]
    rw [hinit, Option.some_bind]
    unfold ResUnet.forward castFloat32Shape
    simp only [encodePass, Layer.shape, Option.bind_eq_bind]
    rw [conv2dShape_four inCh (m * 64) N a b ha hb]
    simp only [Option.some_bind, List.dropLast_single, decodePass, Layer.shape]
    rw [convT2dShape_four (m * 64) outCh N a b]
    simp [decodeLoopAux, tanhShape]

/-- Witness for C3: in_channels 3, out_channels 5, multiplier 2, input
[1, 3, 6, 8]. -/
theorem claim_C3_witness :
    ResUnet.init 3 5 ([] : List ℕ) (1/2) = none ∧
    (ResUnet.init 3 5 [2] (1/2)).bind
        (fun cfg => ResUnet.forward cfg ⟨1, 3, 2 * 3, 2 * 4⟩)
      = some ⟨1, 5, 2 * 3, 2 * 4⟩ :=
  claim_C3_short_mults 3 5 2 (1/2) 1 3 4 (by decide) (by decide)

/-- C5 (confirmed): for every constructed ResUnet, the number of decoder
stages equals the number of encoder stages, and the decoder loop fed the
recorded stack minus its last entry (exactly one stored feature map — the
bottleneck — is discarded, regardless of sequence length) computes the
specification's pairing over the full stored list: decoder stage i ≥ 1
concatenates its input with stored[stages − 1 − i], and stage 0 consumes the
bottleneck directly with no concatenation. -/
theorem claim_C5_skip_indexing (inCh outCh : ℕ) (cm : List ℕ) (dq : ℚ)
    (cfg : ResUnetCfg) (hmk : ResUnet.init inCh outCh cm dq = some cfg) :
    cfg.encoders.length = cfg.decoders.length ∧
    ∀ (h : TShape) (stored : List TShape), stored.length = cfg.encoders.length →
      decodePass cfg.decoders h stored.dropLast = specDecodePass cfg.decoders h stored := by
  obtain ⟨he, hd⟩ := init_stage_counts inCh outCh cm dq cfg hmk
  refine ⟨he.trans hd.symm, ?_⟩
  intro h stored hlen
  exact decodePass_spec cfg.decoders h stored (by rw [hlen, he, hd])

/-- Witness for C5: channel_mults = [1, 2], a two-entry stored stack. -/
theorem claim_C5_witness :
    ([Layer.conv2d 1 64 4 2 1, Layer.encoderBlock 64 128 false] : List Layer).length
      = ([Layer.decoderBlock 128 64 0, Layer.convT2d 128 2 4 2 1] : List Layer).length ∧
    decodePass [Layer.decoderBlock 128 64 0, Layer.convT2d 128 2 4 2 1]
        ⟨1, 128, 1, 1⟩ (([⟨1, 64, 2, 2⟩, ⟨1, 128, 1, 1⟩] : List TShape).dropLast)
      = specDecodePass [Layer.decoderBlock 128 64 0, Layer.convT2d 128 2 4 2 1]
          ⟨1, 128, 1, 1⟩ [⟨1, 64, 2, 2⟩, ⟨1, 128, 1, 1⟩] := by
  have h := claim_C5_skip_indexing 1 2 [1, 2] (1/2)
    ⟨[Layer.conv2d 1 64 4 2 1, Layer.encoderBlock 64 128 false],
     [Layer.decoderBlock 128 64 0, Layer.convT2d 128 2 4 2 1]⟩ (by decide)
  exact ⟨h.1, h.2 ⟨1, 128, 1, 1⟩ [⟨1, 64, 2, 2⟩, ⟨1, 128, 1, 1⟩] (by decide)⟩

/-- C6 (as stated it fails at spatial size 0): H = 0 and W = 4 are even, but
EncoderBlock.forward fails on [1, 3, 0, 4] (the padded input is smaller than
the 4×4 kernel) instead of returning shape [1, 8, 0, 2]. -/
theorem claim_C6_counterexample :
    Layer.shape (Layer.encoderBlock 3 8 true) ⟨1, 3, 0, 4⟩ = none := by decide

/-- C6 (amended): for every input with even positive spatial dimensions 2a
and 2b and channel count equal to the block's in_channels, EncoderBlock
returns out_channels channels at exactly half the spatial size, for either
norm flag. -/
theorem claim_C6_encoder_halves (cin cout : ℕ) (nm : Bool) (N a b : ℕ)
    (ha : 1 ≤ a) (hb : 1 ≤ b) :
    Layer.shape (Layer.encoderBlock cin cout nm) ⟨N, cin, 2 * a, 2 * b⟩
      = some ⟨N, cout, a, b⟩ :=
  encoderBlock_shape cin cout nm N a b ha hb

/-- Witness for C6: a 4×6 input maps to 2×3. -/
theorem claim_C6_witness :
    Layer.shape (Layer.encoderBlock 3 8 true) ⟨2, 3, 2 * 2, 2 * 3⟩
      = some ⟨2, 8, 2, 3⟩ :=
  claim_C6_encoder_halves 3 8 true 2 2 3 (by decide) (by decide)

/-- C7 (as stated it fails at spatial size 0): on input [1, 4, 0, 5] the
DecoderBlock fails (after the transposed convolution the 3×3 convolution
rejects a padded 2×12 input smaller than its kernel in H) instead of
returning shape [1, 2, 0, 10]. -/
theorem claim_C7_counterexample :
    Layer.shape (Layer.decoderBlock 4 2 0) ⟨1, 4, 0, 5⟩ = none := by decide

/-- C7 (amended): for every input with positive spatial dimensions and
channel count equal to the block's in_channels, DecoderBlock returns
out_channels channels at exactly double the spatial size, for any dropout
rate. -/
theorem claim_C7_decoder_doubles (cin cout : ℕ) (dq : ℚ) (N a b : ℕ)
    (ha : 1 ≤ a) (hb : 1 ≤ b) :
    Layer.shape (Layer.decoderBlock cin cout dq) ⟨N, cin, a, b⟩
      = some ⟨N, cout, 2 * a, 2 * b⟩ :=
  decoderBlock_shape cin cout dq N a b ha hb

/-- Witness for C7: a 3×5 input maps to 6×10. -/
theorem claim_C7_witness :
    Layer.shape (Layer.decoderBlock 4 2 (1/2)) ⟨1, 4, 3, 5⟩
      = some ⟨1, 2, 2 * 3, 2 * 5⟩ :=
  claim_C7_decoder_doubles 4 2 (1/2) 1 3 5 (by decide) (by decide)

/-- C8 (confirmed): for every model name outside {"pix2pix", "palette",
"transgan"}, main leaves model = None and raises
ValueError("Incorrect model name (...)"); the error result carries no
construction events, so neither the data module nor the trainer is
constructed. -/
theorem claim_C8_invalid_model (m : String)
    (h1 : m ≠ "pix2pix") (h2 : m ≠ "palette") (h3 : m ≠ "transgan") :
    mainRun m = Except.error ("Incorrect model name (" ++ m ++ ")") := by
  simp [mainRun, mainSelect, h1, h2, h3]

/-- Witness for C8: the model name "foo". -/
theorem claim_C8_witness :
    mainRun "foo" = Except.error ("Incorrect model name (" ++ "foo" ++ ")") :=
  claim_C8_invalid_model "foo" (by decide) (by decide) (by decide)

/-- C10 (confirmed): every name in the parser's choices list binds a model in
the match statement, so the ValueError branch is unreachable for them; and
every model name the argument parser can deliver (the default "pix2pix" when
the flag is absent, or a member of choices) makes main reach the construction
phase, so the branch is unreachable through command-line invocation. -/
theorem claim_C10_error_branch_unreachable :
    (∀ m, m ∈ modelChoices → ∃ tg, mainSelect m = some tg) ∧
    (∀ (arg : Option String) (m : String), parseModelArg arg = some m →
      ∃ evs, mainRun m = Except.ok evs) := by
  constructor
  · intro m hm
    simp only [modelChoices, List.mem_cons, List.not_mem_nil, or_false] at hm
    rcases hm with rfl | rfl | rfl
    · exact ⟨ModelTag.pix2pix, rfl⟩
    · exact ⟨ModelTag.palette, rfl⟩
    · exact ⟨ModelTag.transgan, rfl⟩
  · intro arg m hp
    cases arg with
    | none =>
        simp only [parseModelArg, Option.some.injEq] at hp
        subst hp
        exact ⟨_, rfl⟩
    | some m' =>
        simp only [parseModelArg] at hp
        by_cases hmem : m' ∈ modelChoices
        · rw [if_pos hmem, Option.some.injEq] at hp
          subst hp
          simp only [modelChoices, List.mem_cons, List.not_mem_nil, or_false] at hmem
          rcases hmem with rfl | rfl | rfl
          · exact ⟨_, rfl⟩
          · exact ⟨_, rfl⟩
          · exact ⟨_, rfl⟩
        · rw [if_neg hmem] at hp
          exact absurd hp (by simp)

/-- Witness for C10: "palette" binds a model; the default "pix2pix" delivered
by the parser reaches the construction phase. -/
theorem claim_C10_witness :
    (∃ tg, mainSelect "palette" = some tg) ∧
    (∃ evs, mainRun "pix2pix" = Except.ok evs) :=
  ⟨claim_C10_error_branch_unreachable.1 "palette" (by decide),
   claim_C10_error_branch_unreachable.2 none "pix2pix" (by decide)⟩
